import Mathlib

/-!
Verification of the pdf-toolkit backend (src/main.py) against its
natural-language specification.

The Python source is shallowly embedded: Python `str` values become `Str`
(lists of characters), Python `int` becomes `Int` (or `Nat` where the source
value is a count), exceptions become `Except Unit` / `Option`, and the
request-scoped staged-file lifecycle becomes explicit state passing over a
small filesystem state.  Each definition's doc comment names the source
lines it embeds.
-/

/-- Python strings are modelled as lists of characters. -/
abbrev Str := List Char

/-- Converts a Lean string literal to the character-list model. -/
def str (s : String) : Str := s.data

/-- True for the ASCII whitespace characters stripped by Python `str.strip()`
    (space, tab, newline, carriage return, vertical tab, form feed). -/
def isWsChar (c : Char) : Bool :=
  c = ' ' || c = '\t' || c = '\n' || c = '\r' || c = '\x0b' || c = '\x0c'

/-- Model of Python `str.strip()`: remove leading and trailing whitespace. -/
def trimWs (s : Str) : Str :=
  (((s.dropWhile isWsChar).reverse).dropWhile isWsChar).reverse

/-- Model of Python `str.split(sep)` for a one-character separator:
    splits on every occurrence, keeping empty pieces (`"".split(sep) = [""]`). -/
def splitOnChar (sep : Char) : Str → List Str
  | [] => [[]]
  | c :: rest =>
    let r := splitOnChar sep rest
    if c = sep then [] :: r
    else
      match r with
      | h :: t => (c :: h) :: t
      | [] => [[c]]

/-- Decimal digit value of a character, if it is one. -/
def digitVal? (c : Char) : Option Nat :=
  if '0' ≤ c ∧ c ≤ '9' then some (c.toNat - '0'.toNat) else none

/-- Accumulating decimal reader over a digit string; fails on a non-digit. -/
def digitsToNatAux (acc : Nat) : Str → Option Nat
  | [] => some acc
  | c :: r =>
    match digitVal? c with
    | some d => digitsToNatAux (acc * 10 + d) r
    | none => none

/-- Value of a nonempty all-decimal-digit string; `none` otherwise. -/
def digitsToNat? : Str → Option Nat
  | [] => none
  | c :: r =>
    match digitVal? c with
    | some d => digitsToNatAux d r
    | none => none

/-- Sign-and-digits part of Python `int(s)` after stripping: an optional
    single sign, then a nonempty run of decimal digits. -/
def pyIntCore : Str → Option Int
  | [] => none
  | c :: r =>
    if c = '-' then (digitsToNat? r).map (fun n => -(n : Int))
    else if c = '+' then (digitsToNat? r).map (fun n => (n : Int))
    else (digitsToNat? (c :: r)).map (fun n => (n : Int))

/-- Model of Python `int(s)` (base 10): strip whitespace, optional single
    sign, then a nonempty run of decimal digits; raises (`none`) otherwise. -/
def pyInt? (s : Str) : Option Int := pyIntCore (trimWs s)

/-- Model of Python `range(lo, hi)` over integers: `[lo, lo+1, ..., hi-1]`. -/
def intRange (lo hi : Int) : List Int :=
  (List.range (hi - lo).toNat).map (fun (k : Nat) => lo + (k : Int))

/-- Expansion of one (already stripped) token of the split/rotate page
    grammar, embedding src/main.py lines 157-163 (identically re-implemented
    at lines 804-810): a token containing `-` is split and expanded to
    `range(start - 1, min(end, total_pages))`; a plain token `n` contributes
    the single index `n - 1` when it lies in `[0, total_pages)` and nothing
    otherwise; a token `int()` cannot parse raises (`.error`). -/
def expandPart (total : Nat) (part : Str) : Except Unit (List Int) :=
  if '-' ∈ part then
    match splitOnChar '-' part with
    | [a, b] =>
      match pyInt? a, pyInt? b with
      | some s, some e => .ok (intRange (s - 1) (min e (total : Int)))
      | _, _ => .error ()
    | _ => .error ()
  else
    match pyInt? part with
    | some n => .ok (if 0 ≤ n - 1 ∧ n - 1 < (total : Int) then [n - 1] else [])
    | none => .error ()

/-- The `for part in pages.split(",")` accumulation loop of src/main.py
    lines 154-163 / 801-810, with the stripped selection accumulated into
    `acc` in loop order. -/
def selectParts (total : Nat) : List Str → List Int → Except Unit (List Int)
  | [], acc => .ok acc
  | part :: rest, acc =>
    match expandPart total (trimWs part) with
    | .error e => .error e
    | .ok contrib => selectParts total rest (acc ++ contrib)

/-- Page-selection resolution shared by the split endpoint (src/main.py lines
    150-163) and the rotate endpoint (lines 797-810, a character-for-character
    copy that accumulates into a Python `set` instead of a list; the set is
    modelled by the list of inserted elements, which is membership-equivalent).
    `"all"` resolves to `list(range(total_pages))`; otherwise each
    comma-separated token is stripped and expanded by `expandPart`. -/
def parse_page_selection (pages : Str) (total : Nat) : Except Unit (List Int) :=
  if pages = str "all" then
    .ok ((List.range total).map (fun (k : Nat) => (k : Int)))
  else selectParts total (splitOnChar ',' pages) []

/-- Expansion loop shared by the two 1-based token loops of the organize
    endpoint (src/main.py lines 944-951 for `delete_pages`, building a set,
    and lines 954-961 for `page_order`, building a list; the set is modelled
    by the list of inserted elements).  A `-` token expands to
    `range(start, end + 1)` and a plain token is taken as-is: no `- 1`
    adjustment and no bounds check happen here. -/
def expand_1based_tokens : List Str → List Int → Except Unit (List Int)
  | [], acc => .ok acc
  | part :: rest, acc =>
    let p := trimWs part
    if '-' ∈ p then
      match splitOnChar '-' p with
      | [a, b] =>
        match pyInt? a, pyInt? b with
        | some s, some e => expand_1based_tokens rest (acc ++ intRange s (e + 1))
        | _, _ => .error ()
      | _ => .error ()
    else
      match pyInt? p with
      | some n => expand_1based_tokens rest (acc ++ [n])
      | none => .error ()

/-- The page-assembly loop of the organize endpoint (src/main.py lines
    964-968): pages of `new_order` are kept in order, a page in
    `pages_to_delete` is skipped, and a page outside `[1, total_pages]` is
    skipped.  The result lists the kept 1-based page numbers (the code adds
    `reader.pages[page_num - 1]` for each). -/
def organize_keep (total : Nat) : List Int → List Int → List Int
  | [], _ => []
  | p :: rest, dl =>
    if p ∈ dl then organize_keep total rest dl
    else if 1 ≤ p ∧ p ≤ (total : Int) then p :: organize_keep total rest dl
    else organize_keep total rest dl

/-- The organize endpoint's page computation (src/main.py lines 927-968):
    parse `delete_pages` (empty string means no deletions, per the
    `if delete_pages:` guard), parse `page_order`, then assemble.  Returns
    the kept 1-based page numbers in output order. -/
def organize_pdf (page_order delete_pages : Str) (total : Nat) :
    Except Unit (List Int) :=
  match
    (if delete_pages = [] then Except.ok []
     else expand_1based_tokens (splitOnChar ',' delete_pages) []) with
  | .error e => .error e
  | .ok dl =>
    match expand_1based_tokens (splitOnChar ',' page_order) [] with
    | .error e => .error e
    | .ok l => .ok (organize_keep total l dl)

/-- Hexadecimal digit value of a character, if it is one (0-9, a-f, A-F). -/
def hexVal? (c : Char) : Option Nat :=
  if '0' ≤ c ∧ c ≤ '9' then some (c.toNat - '0'.toNat)
  else if 'a' ≤ c ∧ c ≤ 'f' then some (10 + c.toNat - 'a'.toNat)
  else if 'A' ≤ c ∧ c ≤ 'F' then some (10 + c.toNat - 'A'.toNat)
  else none

/-- Accumulating base-16 reader over a hex-digit string. -/
def hexToNatAux (acc : Nat) : Str → Option Nat
  | [] => some acc
  | c :: r =>
    match hexVal? c with
    | some d => hexToNatAux (acc * 16 + d) r
    | none => none

/-- Value of a nonempty all-hex-digit string; `none` otherwise. -/
def hexToNat? : Str → Option Nat
  | [] => none
  | c :: r =>
    match hexVal? c with
    | some d => hexToNatAux d r
    | none => none

/-- Digits part of Python `int(s, 16)`: an optional `0x`/`0X` marker followed
    by a nonempty run of hex digits. -/
def hexMarked? : Str → Option Nat
  | c :: x :: r =>
    if c = '0' ∧ (x = 'x' ∨ x = 'X') then hexToNat? r
    else hexToNat? (c :: x :: r)
  | u => hexToNat? u

/-- Sign-and-digits part of Python `int(s, 16)` after stripping. -/
def pyIntHexCore : Str → Option Int
  | [] => none
  | c :: r =>
    if c = '-' then (hexMarked? r).map (fun n => -(n : Int))
    else if c = '+' then (hexMarked? r).map (fun n => (n : Int))
    else (hexMarked? (c :: r)).map (fun n => (n : Int))

/-- Model of Python `int(s, 16)`: strip whitespace, optional single sign,
    optional `0x` marker, then nonempty hex digits; raises (`none`) otherwise. -/
def pyIntHex? (s : Str) : Option Int := pyIntHexCore (trimWs s)

/-- The color-parsing step shared verbatim by the edit-text endpoint
    (src/main.py lines 516-519), the watermark endpoint (lines 719-722) and
    the page-number endpoint (lines 1014-1017): strip leading `#` characters,
    take the character slices `[0:2]`, `[2:4]`, `[4:6]`, parse each with
    `int(_, 16)` and scale by 255 (the Python float divisions are modelled
    exactly over ℚ).  A slice that fails to parse raises (`none`). -/
def parse_color (color : Str) : Option (ℚ × ℚ × ℚ) :=
  let h := color.dropWhile (fun c => c = '#')
  match pyIntHex? (h.take 2), pyIntHex? ((h.drop 2).take 2),
      pyIntHex? ((h.drop 4).take 2) with
  | some r, some g, some b => some ((r : ℚ) / 255, (g : ℚ) / 255, (b : ℚ) / 255)
  | _, _, _ => none

/-- Follows the spec's words ("a 6-hex-digit color", possibly `#`-prefixed):
    after stripping leading `#` characters, exactly six hexadecimal digits.
    Used only to compare the spec's notion of well-formedness with what
    `parse_color` accepts. -/
def sixHexColor (s : Str) : Bool :=
  let h := s.dropWhile (fun c => c = '#')
  h.length = 6 && h.all (fun c => (hexVal? c).isSome)

/-- A page of the open document: its rotation value and an opaque content
    handle standing for everything else pypdf copies along. -/
structure PPage where
  rot : Int
  content : Nat
deriving DecidableEq

/-- Modelled from the spec: src/main.py line 814 calls the external
    reader/writer library's `page.rotate(rotation)`, whose semantics the spec
    fixes in its Page Mutator contract: accumulate the degrees onto the
    page's existing rotation, modulo 360.  Content is untouched. -/
def page_rotate (degrees : Int) (p : PPage) : PPage :=
  { p with rot := (p.rot + degrees) % 360 }

/-- Index-passing map used to embed `for i, page in enumerate(reader.pages)`. -/
def mapWithIdxFrom (f : Nat → PPage → PPage) (i : Nat) : List PPage → List PPage
  | [] => []
  | p :: ps => f i p :: mapWithIdxFrom f (i + 1) ps

/-- The rotate endpoint's page loop (src/main.py lines 793-815): resolve the
    selection, then for every page of the document in order, rotate it if its
    0-based index is selected and copy it to the writer unchanged otherwise. -/
def rotate_pdf (rotation : Int) (pages : Str) (doc : List PPage) :
    Except Unit (List PPage) :=
  match parse_page_selection pages doc.length with
  | .error e => .error e
  | .ok sel =>
    .ok (mapWithIdxFrom
      (fun i p => if (i : Int) ∈ sel then page_rotate rotation p else p) 0 doc)

/-- Digit character for a value below ten. -/
def digitChar : Nat → Char
  | 0 => '0' | 1 => '1' | 2 => '2' | 3 => '3' | 4 => '4'
  | 5 => '5' | 6 => '6' | 7 => '7' | 8 => '8' | 9 => '9'
  | _ => '0'

/-- Fuel-driven decimal rendering of a natural number (most significant digit
    first); `natToStr` supplies enough fuel for every input. -/
def natToStrAux : Nat → Nat → Str
  | 0, _ => []
  | fuel + 1, n =>
    if n < 10 then [digitChar n]
    else natToStrAux fuel (n / 10) ++ [digitChar (n % 10)]

/-- Model of Python `str(n)` for a natural number. -/
def natToStr (n : Nat) : Str := natToStrAux (n + 1) n

/-- Model of Python `str(i)` for an integer. -/
def intToStr (i : Int) : Str :=
  if i < 0 then '-' :: natToStr i.natAbs else natToStr i.toNat

/-- `leadsWith w s` is true when `w` is an initial segment of `s`. -/
def leadsWith : Str → Str → Bool
  | [], _ => true
  | _ :: _, [] => false
  | a :: as, b :: bs => a = b && leadsWith as bs

/-- Fuel-driven scanner behind `replaceAll`; one unit of fuel per examined
    position, so fuel equal to the string length always suffices. -/
def replaceAllAux (needle repl : Str) : Nat → Str → Str
  | 0, s => s
  | _ + 1, [] => []
  | fuel + 1, c :: rest =>
    if leadsWith needle (c :: rest) then
      repl ++ replaceAllAux needle repl fuel (List.drop needle.length (c :: rest))
    else c :: replaceAllAux needle repl fuel rest

/-- Model of Python `str.replace(needle, repl)`: replace every
    non-overlapping occurrence, scanning left to right. -/
def replaceAll (needle repl s : Str) : Str :=
  replaceAllAux needle repl s.length s

/-- The literal `"{n}"` placeholder. -/
def needleN : Str := ['{', 'n', '}']

/-- The literal `"{total}"` placeholder. -/
def needleT : Str := ['{', 't', 'o', 't', 'a', 'l', '}']

/-- The per-page text computation of the page-number endpoint (src/main.py
    lines 1019-1044): page 0 is skipped entirely when `skip_first` is set;
    otherwise the page number is `start_number + i`, decremented once when
    `skip_first` is set, and the text is
    `format_str.replace("{n}", str(page_num)).replace("{total}", str(total_pages))`.
    `none` means the page receives no text. -/
def page_number_text (format_str : Str) (start_number : Int) (skip_first : Bool)
    (total : Nat) (i : Nat) : Option Str :=
  if skip_first && i == 0 then none
  else
    let page_num := start_number + (i : Int) - (if skip_first then 1 else 0)
    some (replaceAll needleT (natToStr total)
      (replaceAll needleN (intToStr page_num) format_str))

/-- Fuel-driven scanner behind `subst_template_spec`. -/
def substTemplateAux (A B : Str) : Nat → Str → Str
  | 0, s => s
  | _ + 1, [] => []
  | fuel + 1, c :: rest =>
    if leadsWith needleN (c :: rest) then
      A ++ substTemplateAux A B fuel (List.drop 3 (c :: rest))
    else if leadsWith needleT (c :: rest) then
      B ++ substTemplateAux A B fuel (List.drop 7 (c :: rest))
    else c :: substTemplateAux A B fuel rest

/-- Follows the spec's words: the text is "produced by substituting the
    literal placeholders for current-page-number and total-page-count into a
    caller-supplied format template" — a single simultaneous pass that
    replaces each `{n}` by `A` and each `{total}` by `B`.  Used to compare
    the spec's substitution semantics with the source's sequential
    `str.replace` chain. -/
def subst_template_spec (A B t : Str) : Str := substTemplateAux A B t.length t

/-- The preview endpoint's in-document index for the PDF branch, modelling
    PyMuPDF `doc[p]`: a 0-based index in `[0, total)` resolves to itself, a
    negative index in `[-total, 0)` wraps from the end, anything else raises. -/
def fitz_page_index (total : Nat) (p : Int) : Option Nat :=
  if 0 ≤ p ∧ p < (total : Int) then some p.toNat
  else if -(total : Int) ≤ p ∧ p < 0 then some ((total : Int) + p).toNat
  else none

/-- The preview endpoint's page-fallback logic (src/main.py lines 1150-1157):
    a requested 0-based page at or beyond the page count is replaced by page
    0 before indexing the document; returns the index of the page rendered. -/
def generate_preview (page : Int) (total : Nat) : Option Nat :=
  fitz_page_index total (if page ≥ (total : Int) then 0 else page)

/-- Filesystem state scoped to one request: the staged paths currently on
    disk and the multiset (as a list) of performed unlinks.  Paths are
    numbered: 0 the staged upload, 1 the converter's own output
    `OUTPUT_DIR / (temp stem + ".pdf")`, 2 the allocated output path. -/
structure FState where
  disk : List Nat
  unlinks : List Nat
deriving DecidableEq

/-- The empty filesystem at request start. -/
def fsInit : FState := { disk := [], unlinks := [] }

/-- A file is written at `p` (an overwrite leaves the set of paths as is). -/
def createFile (p : Nat) (s : FState) : FState :=
  if p ∈ s.disk then s else { s with disk := p :: s.disk }

/-- src/main.py lines 75-81, `cleanup_file`: unlink the path if it exists,
    swallowing absence and errors; an actual unlink is recorded. -/
def cleanup_file (p : Nat) (s : FState) : FState :=
  if p ∈ s.disk then { disk := s.disk.erase p, unlinks := p :: s.unlinks }
  else s

/-- Python `shutil.move(src, dst)`: the file stops existing at `src` and
    exists at `dst`. -/
def moveFile (src dst : Nat) (s : FState) : FState :=
  createFile dst { s with disk := s.disk.erase src }

/-- How the `subprocess.run(["libreoffice", ...])` call of the word-to-pdf
    endpoint can exit, as distinguished by the handler: normal completion,
    `subprocess.TimeoutExpired`, or `FileNotFoundError`.  In the first two
    cases the external converter may or may not have already created its
    output file in the output directory. -/
inductive SubprocOutcome where
  | completed (convertedCreated : Bool)
  | timeout (convertedCreated : Bool)
  | notFound
deriving DecidableEq

/-- The staged-file lifecycle of the word-to-pdf endpoint (src/main.py lines
    346-390), one exit path per `SubprocOutcome`.  With no file in the
    request the handler returns before staging anything.  Otherwise the
    upload is staged (path 0); the converter may create path 1; on success
    path 1 is moved to path 2, the handler returns the response (running the
    `finally` cleanup of path 0) and the `call_on_close` callback then
    releases path 2 once the response is done; on `TimeoutExpired` or
    `FileNotFoundError` the handler returns a 500 and only the `finally`
    cleanup of path 0 runs; if the converted file is missing a 500 is
    returned, again with only the `finally` cleanup. -/
def word_to_pdf (fileProvided : Bool) (oc : SubprocOutcome) : FState :=
  if !fileProvided then fsInit
  else
    let s := createFile 0 fsInit
    match oc with
    | .completed created =>
      if created then
        let s := createFile 1 s
        let s := moveFile 1 2 s
        let s := cleanup_file 0 s
        cleanup_file 2 s
      else cleanup_file 0 s
    | .timeout created =>
      let s := if created then createFile 1 s else s
      cleanup_file 0 s
    | .notFound => cleanup_file 0 s

/-- A nonempty all-decimal-digit token whose value is at least 1: the
    claims' notion of a "positive integer" token of the range grammar. -/
def isPosDigits (u : Str) : Bool :=
  match digitsToNat? u with
  | some v => decide (1 ≤ v)
  | none => false

/-- A valid token of the split/rotate range grammar as the claims put it:
    a positive integer, or a `start-end` pair of positive integers. -/
def validTokenB (t : Str) : Bool :=
  isPosDigits t ||
    (match splitOnChar '-' t with
     | [a, b] => isPosDigits a && isPosDigits b
     | _ => false)

/-- Characters that Python `str()` can produce when rendering an integer:
    decimal digits and the minus sign. -/
def isNumChar (c : Char) : Bool := (digitVal? c).isSome || c = '-'

/-! Helper lemmas about the string model. -/

theorem dropWhile_eq_self_of (p : Char → Bool) (s : Str)
    (h : ∀ c ∈ s, p c = false) : s.dropWhile p = s := by
  cases s with
  | nil => rfl
  | cons c r => simp [List.dropWhile, h c (by simp)]

theorem trimWs_noop (s : Str) (h : ∀ c ∈ s, isWsChar c = false) :
    trimWs s = s := by
  unfold trimWs
  rw [dropWhile_eq_self_of _ _ h,
    dropWhile_eq_self_of _ _ (fun c hc => h c (List.mem_reverse.mp hc)),
    List.reverse_reverse]

theorem splitOnChar_nosep (sep : Char) (s : Str) (h : sep ∉ s) :
    splitOnChar sep s = [s] := by
  induction s with
  | nil => rfl
  | cons c r ih =>
    have hc : ¬ c = sep := by rintro rfl; exact h (by simp)
    have hr : sep ∉ r := fun hm => h (by simp [hm])
    simp [splitOnChar, hc, ih hr]

theorem splitOnChar_sep_append (sep : Char) (a b : Str) (ha : sep ∉ a) :
    splitOnChar sep (a ++ sep :: b) = a :: splitOnChar sep b := by
  induction a with
  | nil => simp [splitOnChar]
  | cons c r ih =>
    have hc : ¬ c = sep := by rintro rfl; exact ha (by simp)
    have hr : sep ∉ r := fun hm => ha (by simp [hm])
    show splitOnChar sep (c :: (r ++ sep :: b)) = (c :: r) :: splitOnChar sep b
    simp only [splitOnChar, hc, if_false, ih hr]

theorem digitVal?_isSome_iff (c : Char) :
    (digitVal? c).isSome = true ↔ ('0' ≤ c ∧ c ≤ '9') := by
  unfold digitVal?
  split <;> simp_all

theorem digit_not_special (c : Char) (h : (digitVal? c).isSome = true) :
    isWsChar c = false ∧ c ≠ '-' ∧ c ≠ '+' ∧ c ≠ ',' ∧ c ≠ '#' := by
  have hc := (digitVal?_isSome_iff c).mp h
  refine ⟨?_, ?_, ?_, ?_, ?_⟩
  · by_contra hw
    simp only [Bool.not_eq_false, isWsChar, Bool.or_eq_true,
      decide_eq_true_eq] at hw
    casesm* _ ∨ _ <;> subst_vars <;> revert hc <;> decide
  · rintro rfl; revert hc; decide
  · rintro rfl; revert hc; decide
  · rintro rfl; revert hc; decide
  · rintro rfl; revert hc; decide

theorem digitsToNatAux_digits (r : Str) : ∀ acc v,
    digitsToNatAux acc r = some v → ∀ c ∈ r, (digitVal? c).isSome = true := by
  induction r with
  | nil => simp
  | cons c t ih =>
    intro acc v h d hd
    cases hc : digitVal? c with
    | none => simp [digitsToNatAux, hc] at h
    | some dv =>
      simp only [digitsToNatAux, hc] at h
      rcases List.mem_cons.mp hd with rfl | hd2
      · simp [hc]
      · exact ih _ _ h d hd2

theorem digits_of_digitsToNat? (s : Str) (v : Nat) (h : digitsToNat? s = some v) :
    s ≠ [] ∧ ∀ c ∈ s, (digitVal? c).isSome = true := by
  cases s with
  | nil => simp [digitsToNat?] at h
  | cons c r =>
    cases hc : digitVal? c with
    | none => simp [digitsToNat?, hc] at h
    | some dv =>
      simp only [digitsToNat?, hc] at h
      refine ⟨by simp, ?_⟩
      intro d hd
      rcases List.mem_cons.mp hd with rfl | hd2
      · simp [hc]
      · exact digitsToNatAux_digits r _ _ h d hd2

theorem pyInt?_digits (s : Str) (v : Nat) (h : digitsToNat? s = some v) :
    pyInt? s = some (v : Int) := by
  obtain ⟨hne, hall⟩ := digits_of_digitsToNat? s v h
  have htrim : trimWs s = s :=
    trimWs_noop s (fun c hc => (digit_not_special c (hall c hc)).1)
  unfold pyInt?
  rw [htrim]
  cases s with
  | nil => exact absurd rfl hne
  | cons c r =>
    have hd := digit_not_special c (hall c (by simp))
    simp only [pyIntCore, if_neg hd.2.1, if_neg hd.2.2.1, h]
    rfl

theorem intRange_mem (lo hi i : Int) (h : i ∈ intRange lo hi) :
    lo ≤ i ∧ i < hi := by
  unfold intRange at h
  obtain ⟨k, hk, rfl⟩ := List.mem_map.mp h
  have hk2 := List.mem_range.mp hk
  omega

theorem intRange_empty (lo hi : Int) (h : hi ≤ lo) : intRange lo hi = [] := by
  unfold intRange
  have : (hi - lo).toNat = 0 := by omega
  simp [this]

theorem isPosDigits_val (u : Str) (h : isPosDigits u = true) :
    ∃ v : Nat, digitsToNat? u = some v ∧ 1 ≤ v := by
  unfold isPosDigits at h
  cases hv : digitsToNat? u with
  | none => rw [hv] at h; simp at h
  | some v => rw [hv] at h; simp at h; exact ⟨v, rfl, h⟩

theorem digits_no_dash (u : Str) (v : Nat) (h : digitsToNat? u = some v) :
    '-' ∉ u := by
  intro hm
  have hs := (digits_of_digitsToNat? u v h).2 '-' hm
  revert hs; decide

theorem expandPart_valid (total : Nat) (t : Str) (hv : validTokenB t = true) :
    ∃ contrib, expandPart total t = .ok contrib ∧
      ∀ i ∈ contrib, 0 ≤ i ∧ i < (total : Int) := by
  unfold validTokenB at hv
  rw [Bool.or_eq_true] at hv
  rcases hv with hp | hpair
  · obtain ⟨v, hv2, hge⟩ := isPosDigits_val t hp
    have hnd : '-' ∉ t := digits_no_dash t v hv2
    have hint : pyInt? t = some ((v : Nat) : Int) := pyInt?_digits t v hv2
    have hexp : expandPart total t
        = .ok (if 0 ≤ ((v : Nat) : Int) - 1 ∧ ((v : Nat) : Int) - 1 < (total : Int)
               then [((v : Nat) : Int) - 1] else []) := by
      unfold expandPart
      rw [if_neg hnd, hint]
    refine ⟨_, hexp, ?_⟩
    intro i hi
    by_cases hb : 0 ≤ ((v : Nat) : Int) - 1 ∧ ((v : Nat) : Int) - 1 < (total : Int)
    · rw [if_pos hb] at hi
      simp only [List.mem_singleton] at hi
      subst hi; exact hb
    · rw [if_neg hb] at hi
      simp at hi
  · cases hsplit : splitOnChar '-' t with
    | nil => rw [hsplit] at hpair; simp at hpair
    | cons a rest =>
      cases rest with
      | nil => rw [hsplit] at hpair; simp at hpair
      | cons b rest2 =>
        cases rest2 with
        | cons x xs => rw [hsplit] at hpair; simp at hpair
        | nil =>
          rw [hsplit] at hpair
          rw [Bool.and_eq_true] at hpair
          obtain ⟨ha, hb⟩ := hpair
          obtain ⟨va, hva, hga⟩ := isPosDigits_val a ha
          obtain ⟨vb, hvb, hgb⟩ := isPosDigits_val b hb
          have hdash : '-' ∈ t := by
            by_contra hnd
            rw [splitOnChar_nosep '-' t hnd] at hsplit
            simp at hsplit
          have hexp : expandPart total t
              = .ok (intRange (((va : Nat) : Int) - 1)
                  (min ((vb : Nat) : Int) (total : Int))) := by
            unfold expandPart
            rw [if_pos hdash, hsplit]
            show (match pyInt? a, pyInt? b with
              | some s, some e =>
                Except.ok (intRange (s - 1) (min e (total : Int)))
              | _, _ => Except.error ()) = _
            rw [pyInt?_digits a va hva, pyInt?_digits b vb hvb]
          refine ⟨_, hexp, ?_⟩
          intro i hi
          have hm := intRange_mem _ _ _ hi
          omega

theorem selectParts_bounded (total : Nat) : ∀ (parts : List Str) (acc : List Int),
    (∀ part ∈ parts, validTokenB (trimWs part) = true) →
    (∀ i ∈ acc, 0 ≤ i ∧ i < (total : Int)) →
    ∃ sel, selectParts total parts acc = .ok sel ∧
      ∀ i ∈ sel, 0 ≤ i ∧ i < (total : Int) := by
  intro parts
  induction parts with
  | nil => intro acc _ hacc; exact ⟨acc, rfl, hacc⟩
  | cons part rest ih =>
    intro acc hv hacc
    obtain ⟨contrib, hc, hcb⟩ :=
      expandPart_valid total (trimWs part) (hv part (by simp))
    have hacc2 : ∀ i ∈ acc ++ contrib, 0 ≤ i ∧ i < (total : Int) := by
      intro i hi
      rcases List.mem_append.mp hi with h1 | h2
      · exact hacc i h1
      · exact hcb i h2
    obtain ⟨sel, hsel, hsb⟩ :=
      ih (acc ++ contrib) (fun p hp => hv p (by simp [hp])) hacc2
    refine ⟨sel, ?_, hsb⟩
    simp only [selectParts, hc, hsel]

/-- C5: for every total page count, resolving the `"all"` sentinel yields
    exactly the selection `[0 .. total_pages - 1]`, in ascending order. -/
theorem all_sentinel_selects_every_page (total : Nat) :
    ∃ sel, parse_page_selection (str "all") total = .ok sel ∧
      sel = (List.range total).map (fun (k : Nat) => (k : Int)) ∧
      sel.length = total ∧ List.Pairwise (· < ·) sel := by
  refine ⟨_, ?_, rfl, ?_, ?_⟩
  · unfold parse_page_selection
    rw [if_pos rfl]
  · simp
  · refine List.Pairwise.map _ ?_ (List.pairwise_lt_range total)
    intro a b h
    exact_mod_cast h

/-- C6: for every range string all of whose comma-separated tokens are
    positive integers or `start-end` pairs of positive integers, and every
    total page count, the split/rotate selection resolves without error and
    every resolved index lies within `[0, total_pages)` — out-of-range
    tokens are dropped, never raised. -/
theorem valid_selection_within_bounds (pages : Str) (total : Nat)
    (hv : ∀ part ∈ splitOnChar ',' pages, validTokenB (trimWs part) = true) :
    ∃ sel, parse_page_selection pages total = .ok sel ∧
      ∀ i ∈ sel, 0 ≤ i ∧ i < (total : Int) := by
  unfold parse_page_selection
  by_cases hall : pages = str "all"
  · rw [if_pos hall]
    refine ⟨_, rfl, ?_⟩
    intro i hi
    obtain ⟨k, hk, rfl⟩ := List.mem_map.mp hi
    have hk2 := List.mem_range.mp hk
    omega
  · rw [if_neg hall]
    exact selectParts_bounded total _ [] hv (by simp)

/-- Witness for C6 at the concrete input `pages = "2,5-9"`, `total = 3`. -/
theorem valid_selection_within_bounds_witness :
    ∃ sel, parse_page_selection (str "2,5-9") 3 = .ok sel ∧
      ∀ i ∈ sel, 0 ≤ i ∧ i < (3 : Int) :=
  valid_selection_within_bounds (str "2,5-9") 3 (by decide)

/-- C2 counterexample: resolving the descending range `"3-1"` does not fail;
    it silently produces the empty selection (the claimed
    `MalformedRangeError` does not exist in the code). -/
theorem descending_range_no_error :
    parse_page_selection (str "3-1") 5 = .ok [] := rfl

/-- C2 amended: a descending `start-end` token (both endpoints decimal
    numerals, with end < start) makes `range(start - 1, min(end, total))`
    empty, so resolution succeeds with the empty selection instead of
    raising. -/
theorem descending_range_resolves_empty (sa sb : Str) (va vb : Nat)
    (total : Nat) (ha : digitsToNat? sa = some va)
    (hb : digitsToNat? sb = some vb) (hdesc : vb < va) :
    parse_page_selection (sa ++ '-' :: sb) total = .ok [] := by
  obtain ⟨hna, halla⟩ := digits_of_digitsToNat? sa va ha
  obtain ⟨hnb, hallb⟩ := digits_of_digitsToNat? sb vb hb
  have hchars : ∀ c ∈ sa ++ '-' :: sb, isWsChar c = false ∧ c ≠ ',' := by
    intro c hc
    rcases List.mem_append.mp hc with h1 | h2
    · have hd := digit_not_special c (halla c h1)
      exact ⟨hd.1, hd.2.2.2.1⟩
    · rcases List.mem_cons.mp h2 with rfl | h3
      · exact ⟨by decide, by decide⟩
      · have hd := digit_not_special c (hallb c h3)
        exact ⟨hd.1, hd.2.2.2.1⟩
  have hhead : (sa ++ '-' :: sb).head? ≠ some 'a' := by
    cases sa with
    | nil => simp only [List.nil_append, List.head?]; decide
    | cons c r =>
      have hc := halla c (by simp)
      simp only [List.cons_append, List.head?]
      intro heq
      have : c = 'a' := by injection heq
      subst this
      revert hc
      decide
  have hne_all : sa ++ '-' :: sb ≠ str "all" := by
    intro heq
    apply hhead
    rw [heq]
    rfl
  have hsplit_comma : splitOnChar ',' (sa ++ '-' :: sb) = [sa ++ '-' :: sb] :=
    splitOnChar_nosep ',' _ (fun hm => absurd rfl (hchars ',' hm).2)
  have htrim : trimWs (sa ++ '-' :: sb) = sa ++ '-' :: sb :=
    trimWs_noop _ (fun c hc => (hchars c hc).1)
  have hdash : '-' ∈ sa ++ '-' :: sb := by simp
  have hnda : '-' ∉ sa := digits_no_dash sa va ha
  have hndb : '-' ∉ sb := digits_no_dash sb vb hb
  have hsplit_dash : splitOnChar '-' (sa ++ '-' :: sb) = [sa, sb] := by
    rw [splitOnChar_sep_append '-' sa sb hnda, splitOnChar_nosep '-' sb hndb]
  have hempty : intRange ((va : Int) - 1) (min (vb : Int) (total : Int)) = [] :=
    intRange_empty _ _ (by omega)
  have hexp : expandPart total (sa ++ '-' :: sb) = .ok [] := by
    unfold expandPart
    rw [if_pos hdash, hsplit_dash]
    show (match pyInt? sa, pyInt? sb with
      | some s, some e => Except.ok (intRange (s - 1) (min e (total : Int)))
      | _, _ => Except.error ()) = _
    rw [pyInt?_digits sa va ha, pyInt?_digits sb vb hb]
    show Except.ok (intRange ((va : Int) - 1) (min (vb : Int) (total : Int)))
      = Except.ok ([] : List Int)
    rw [hempty]
  unfold parse_page_selection
  rw [if_neg hne_all, hsplit_comma]
  simp only [selectParts, htrim, hexp]
  rfl

/-- Witness for C2's amended claim at the concrete token `"3-1"`. -/
theorem descending_range_resolves_empty_witness :
    parse_page_selection (['3'] ++ '-' :: ['1']) 5 = .ok [] :=
  descending_range_resolves_empty ['3'] ['1'] 3 1 5 (by decide) (by decide)
    (by decide)

/-- C10: when the requested 0-based preview page is at or beyond the page
    count of a nonempty PDF, the preview endpoint does not fail: it falls
    back to rendering page 0. -/
theorem preview_out_of_range_falls_back_to_page_zero (page : Int) (total : Nat)
    (h1 : 1 ≤ total) (h2 : (total : Int) ≤ page) :
    generate_preview page total = some 0 := by
  unfold generate_preview
  rw [if_pos (show page ≥ (total : Int) from h2)]
  unfold fitz_page_index
  rw [if_pos (show (0 : Int) ≤ 0 ∧ (0 : Int) < (total : Int) by omega)]
  rfl

/-- Witness for C10 at page 5 of a 2-page document. -/
theorem preview_out_of_range_falls_back_to_page_zero_witness :
    generate_preview 5 2 = some 0 :=
  preview_out_of_range_falls_back_to_page_zero 5 2 (by decide) (by decide)

/-- C1 counterexample: on the word-to-pdf exit path where the converter
    subprocess times out after having created its output file in the output
    directory, that staged output file remains on disk after the request. -/
theorem word_to_pdf_timeout_leaves_converted_output :
    (word_to_pdf true (SubprocOutcome.timeout true)).disk = [1] ∧
      (word_to_pdf true (SubprocOutcome.timeout true)).disk ≠ [] :=
  ⟨rfl, by decide⟩

/-- C1 amended: on every exit path of the word-to-pdf handler the staged
    uploaded input (path 0) is gone from disk and was unlinked exactly once,
    and on the normal-completion path every staged file is released (the
    allocated output, path 2, exactly once). -/
theorem word_to_pdf_staged_release (oc : SubprocOutcome) :
    0 ∉ (word_to_pdf true oc).disk ∧
      (word_to_pdf true oc).unlinks.count 0 = 1 ∧
      (oc = SubprocOutcome.completed true →
        (word_to_pdf true oc).disk = [] ∧
          (word_to_pdf true oc).unlinks = [2, 0]) := by
  cases oc with
  | completed b => cases b <;> decide
  | timeout b => cases b <;> decide
  | notFound => decide

/-- Witness for C1's amended claim on the normal-completion exit path. -/
theorem word_to_pdf_staged_release_witness :
    (word_to_pdf true (SubprocOutcome.completed true)).disk = [] ∧
      (word_to_pdf true (SubprocOutcome.completed true)).unlinks = [2, 0] :=
  (word_to_pdf_staged_release (SubprocOutcome.completed true)).2.2 rfl

theorem organize_keep_eq_filter (total : Nat) (dl : List Int) :
    ∀ l : List Int, organize_keep total l dl
      = l.filter (fun p => decide (p ∉ dl ∧ 1 ≤ p ∧ p ≤ (total : Int))) := by
  intro l
  induction l with
  | nil => rfl
  | cons p rest ih =>
    by_cases hp : p ∈ dl
    · have hno : ¬(p ∉ dl ∧ 1 ≤ p ∧ p ≤ (total : Int)) := by tauto
      simp [organize_keep, hp, ih, List.filter_cons, hno]
    · by_cases hb : 1 ≤ p ∧ p ≤ (total : Int)
      · have hyes : p ∉ dl ∧ 1 ≤ p ∧ p ≤ (total : Int) := ⟨hp, hb⟩
        simp [organize_keep, hp, hb, ih, List.filter_cons, hyes]
      · have hno : ¬(p ∉ dl ∧ 1 ≤ p ∧ p ≤ (total : Int)) := by tauto
        simp [organize_keep, hp, hb, ih, List.filter_cons, hno]

/-- C4: whenever the two 1-based specs parse, the organize operation outputs
    exactly the pages of the `page_order` expansion, in expansion order,
    dropping those in the `delete_pages` expansion and those outside
    `[1, total_pages]`. -/
theorem organize_filters_order_by_deletions_and_bounds
    (page_order delete_pages : Str) (total : Nat) (l dl : List Int)
    (horder : expand_1based_tokens (splitOnChar ',' page_order) [] = .ok l)
    (hdel : (if delete_pages = [] then Except.ok []
             else expand_1based_tokens (splitOnChar ',' delete_pages) [])
        = .ok dl) :
    organize_pdf page_order delete_pages total
      = .ok (l.filter (fun p => decide (p ∉ dl ∧ 1 ≤ p ∧ p ≤ (total : Int)))) := by
  unfold organize_pdf
  rw [hdel]
  show (match expand_1based_tokens (splitOnChar ',' page_order) [] with
    | .error e => Except.error e
    | .ok l2 => Except.ok (organize_keep total l2 dl)) = _
  rw [horder]
  show Except.ok (organize_keep total l dl) = _
  rw [organize_keep_eq_filter]

/-- Witness for C4: `page_order="2,1,3"`, `delete_pages="1"` on a 3-page
    document keeps pages 2 and 3 in that order. -/
theorem organize_example_two_one_three :
    organize_pdf (str "2,1,3") (str "1") 3 = .ok [2, 3] :=
  (organize_filters_order_by_deletions_and_bounds (str "2,1,3") (str "1") 3
    [2, 1, 3] [1] rfl rfl).trans rfl

theorem rotate_fold_components (ds : List Int) : ∀ p : PPage,
    0 ≤ p.rot → p.rot < 360 →
    (ds.foldl (fun q d => page_rotate d q) p).rot = (p.rot + ds.sum) % 360 ∧
      (ds.foldl (fun q d => page_rotate d q) p).content = p.content := by
  induction ds with
  | nil =>
    intro p h1 h2
    refine ⟨?_, rfl⟩
    simp only [List.foldl_nil, List.sum_nil]
    omega
  | cons d rest ih =>
    intro p h1 h2
    have h3 : 0 ≤ (page_rotate d p).rot := Int.emod_nonneg _ (by norm_num)
    have h4 : (page_rotate d p).rot < 360 := Int.emod_lt_of_pos _ (by norm_num)
    obtain ⟨hr, hc⟩ := ih (page_rotate d p) h3 h4
    constructor
    · rw [List.foldl_cons, hr]
      simp only [page_rotate, List.sum_cons]
      omega
    · rw [List.foldl_cons, hc]
      rfl

/-- C7: applying any sequence of rotate mutations whose degrees sum to a
    multiple of 360 to a page (with a normalized starting rotation) returns
    the page unchanged: rotation accumulates modulo 360. -/
theorem rotations_summing_to_full_turns_cancel (p : PPage) (ds : List Int)
    (h1 : 0 ≤ p.rot) (h2 : p.rot < 360) (hsum : ds.sum % 360 = 0) :
    ds.foldl (fun q d => page_rotate d q) p = p := by
  obtain ⟨hr, hc⟩ := rotate_fold_components ds p h1 h2
  have hrot : (ds.foldl (fun q d => page_rotate d q) p).rot = p.rot := by
    rw [hr]; omega
  cases hq : ds.foldl (fun q d => page_rotate d q) p with
  | mk qr qc =>
    rw [hq] at hrot hc
    cases p with
    | mk pr pc =>
      simp only at hrot hc
      rw [hrot, hc]

/-- Witness for C7: two 180-degree rotations return a page to its original
    rotation. -/
theorem rotations_summing_to_full_turns_cancel_witness :
    List.foldl (fun q d => page_rotate d q) ⟨90, 5⟩ [180, 180] = ⟨90, 5⟩ :=
  rotations_summing_to_full_turns_cancel ⟨90, 5⟩ [180, 180] (by decide)
    (by decide) (by decide)

theorem mapWithIdxFrom_length (f : Nat → PPage → PPage) :
    ∀ (l : List PPage) (i : Nat), (mapWithIdxFrom f i l).length = l.length := by
  intro l
  induction l with
  | nil => intro i; rfl
  | cons p ps ih => intro i; simp [mapWithIdxFrom, ih]

theorem mapWithIdxFrom_get (f : Nat → PPage → PPage) :
    ∀ (l : List PPage) (i k : Nat) (hk : k < l.length)
      (hk2 : k < (mapWithIdxFrom f i l).length),
      (mapWithIdxFrom f i l).get ⟨k, hk2⟩ = f (i + k) (l.get ⟨k, hk⟩) := by
  intro l
  induction l with
  | nil => intro i k hk hk2; simp at hk
  | cons p ps ih =>
    intro i k hk hk2
    cases k with
    | zero => rfl
    | succ k2 =>
      have hk3 : k2 < ps.length := by simpa using hk
      have hk4 : k2 < (mapWithIdxFrom f (i + 1) ps).length := by
        rw [mapWithIdxFrom_length]; exact hk3
      show (mapWithIdxFrom f (i + 1) ps).get ⟨k2, hk4⟩
        = f (i + (k2 + 1)) (ps.get ⟨k2, hk3⟩)
      rw [ih (i + 1) k2 hk3 hk4]
      congr 1
      omega

/-- C8: whenever the selection resolves, the rotate endpoint outputs a
    document with the same number of pages in original order; every page
    keeps its content, and a page whose index is not selected is copied
    entirely unchanged. -/
theorem rotate_preserves_page_count_and_unselected (rotation : Int)
    (pages : Str) (doc : List PPage) (sel : List Int)
    (hsel : parse_page_selection pages doc.length = .ok sel) :
    ∃ out, rotate_pdf rotation pages doc = .ok out ∧
      out.length = doc.length ∧
      ∀ (k : Nat) (hk : k < doc.length) (hk2 : k < out.length),
        ((k : Int) ∉ sel → out.get ⟨k, hk2⟩ = doc.get ⟨k, hk⟩) ∧
        (out.get ⟨k, hk2⟩).content = (doc.get ⟨k, hk⟩).content := by
  have hout : rotate_pdf rotation pages doc
      = .ok (mapWithIdxFrom
          (fun i p => if (i : Int) ∈ sel then page_rotate rotation p else p)
          0 doc) := by
    unfold rotate_pdf
    rw [hsel]
  refine ⟨_, hout, mapWithIdxFrom_length _ doc 0, ?_⟩
  intro k hk hk2
  rw [mapWithIdxFrom_get
    (fun i p => if (i : Int) ∈ sel then page_rotate rotation p else p)
    doc 0 k hk hk2]
  simp only [Nat.zero_add]
  constructor
  · intro hnot
    rw [if_neg hnot]
  · by_cases hin : (k : Int) ∈ sel
    · rw [if_pos hin]; rfl
    · rw [if_neg hin]

/-- Witness for C8 on a concrete 2-page document with selection `"1"`. -/
theorem rotate_preserves_page_count_and_unselected_witness :
    ∃ out, rotate_pdf 90 (str "1") [⟨0, 10⟩, ⟨0, 11⟩] = .ok out ∧
      out.length = ([⟨0, 10⟩, ⟨0, 11⟩] : List PPage).length ∧
      ∀ (k : Nat) (hk : k < ([⟨0, 10⟩, ⟨0, 11⟩] : List PPage).length)
        (hk2 : k < out.length),
        ((k : Int) ∉ [(0 : Int)] →
          out.get ⟨k, hk2⟩ = ([⟨0, 10⟩, ⟨0, 11⟩] : List PPage).get ⟨k, hk⟩) ∧
        (out.get ⟨k, hk2⟩).content
          = (([⟨0, 10⟩, ⟨0, 11⟩] : List PPage).get ⟨k, hk⟩).content :=
  rotate_preserves_page_count_and_unselected 90 (str "1")
    [⟨0, 10⟩, ⟨0, 11⟩] [0] rfl

theorem hexVal?_not_special (c : Char) (h : (hexVal? c).isSome = true) :
    isWsChar c = false ∧ c ≠ '-' ∧ c ≠ '+' ∧ c ≠ 'x' ∧ c ≠ 'X' := by
  refine ⟨?_, ?_, ?_, ?_, ?_⟩
  · by_contra hw
    simp only [Bool.not_eq_false, isWsChar, Bool.or_eq_true,
      decide_eq_true_eq] at hw
    casesm* _ ∨ _ <;> subst_vars <;> revert h <;> decide
  · rintro rfl; revert h; decide
  · rintro rfl; revert h; decide
  · rintro rfl; revert h; decide
  · rintro rfl; revert h; decide

theorem pyIntHex?_two_hex (x y : Char) (hx : (hexVal? x).isSome = true)
    (hy : (hexVal? y).isSome = true) : (pyIntHex? [x, y]).isSome = true := by
  obtain ⟨dx, hdx⟩ := Option.isSome_iff_exists.mp hx
  obtain ⟨dy, hdy⟩ := Option.isSome_iff_exists.mp hy
  have hxs := hexVal?_not_special x hx
  have hys := hexVal?_not_special y hy
  have htrim : trimWs [x, y] = [x, y] := by
    apply trimWs_noop
    intro c hc
    rcases List.mem_cons.mp hc with rfl | hc2
    · exact hxs.1
    · rcases List.mem_cons.mp hc2 with rfl | hc3
      · exact hys.1
      · simp at hc3
  have hmark : hexMarked? [x, y] = hexToNat? [x, y] := by
    show (if x = '0' ∧ (y = 'x' ∨ y = 'X') then hexToNat? []
          else hexToNat? (x :: y :: [])) = hexToNat? [x, y]
    rw [if_neg]
    rintro ⟨h0, hxy⟩
    rcases hxy with rfl | rfl
    · exact hys.2.2.2.1 rfl
    · exact hys.2.2.2.2 rfl
  have hval : hexToNat? [x, y] = some (dx * 16 + dy) := by
    simp [hexToNat?, hexToNatAux, hdx, hdy]
  unfold pyIntHex?
  rw [htrim]
  simp only [pyIntHexCore, if_neg hxs.2.1, if_neg hxs.2.2.1, hmark, hval]
  rfl

theorem list_len6 (l : Str) (h : l.length = 6) :
    ∃ c0 c1 c2 c3 c4 c5, l = [c0, c1, c2, c3, c4, c5] := by
  cases l with
  | nil => simp at h
  | cons c0 l0 =>
  cases l0 with
  | nil => simp at h
  | cons c1 l1 =>
  cases l1 with
  | nil => simp at h
  | cons c2 l2 =>
  cases l2 with
  | nil => simp at h
  | cons c3 l3 =>
  cases l3 with
  | nil => simp at h
  | cons c4 l4 =>
  cases l4 with
  | nil => simp at h
  | cons c5 l5 =>
  cases l5 with
  | nil => exact ⟨c0, c1, c2, c3, c4, c5, rfl⟩
  | cons c6 l6 => simp at h

theorem parse_color_of_hexlist (s : Str) (c0 c1 c2 c3 c4 c5 : Char)
    (hs : s.dropWhile (fun c => c = '#') = [c0, c1, c2, c3, c4, c5])
    (hall : ∀ c ∈ [c0, c1, c2, c3, c4, c5], (hexVal? c).isSome = true) :
    (parse_color s).isSome = true := by
  have h01 := pyIntHex?_two_hex c0 c1 (hall c0 (by simp)) (hall c1 (by simp))
  have h23 := pyIntHex?_two_hex c2 c3 (hall c2 (by simp)) (hall c3 (by simp))
  have h45 := pyIntHex?_two_hex c4 c5 (hall c4 (by simp)) (hall c5 (by simp))
  obtain ⟨v0, hv0⟩ := Option.isSome_iff_exists.mp h01
  obtain ⟨v1, hv1⟩ := Option.isSome_iff_exists.mp h23
  obtain ⟨v2, hv2⟩ := Option.isSome_iff_exists.mp h45
  unfold parse_color
  rw [hs]
  show (match pyIntHex? [c0, c1], pyIntHex? [c2, c3], pyIntHex? [c4, c5] with
    | some r, some g, some b =>
      some ((r : ℚ) / 255, (g : ℚ) / 255, (b : ℚ) / 255)
    | _, _, _ => none).isSome = true
  rw [hv0, hv1, hv2]
  rfl

/-- C3 counterexample: `"ff000"` is not a well-formed 6-hex-digit color, yet
    the shared color parse accepts it (slice `[4:6]` is the single hex digit
    `"0"`), so the operations do not fail on it. -/
theorem parse_color_accepts_five_hex :
    sixHexColor (str "ff000") = false ∧
      (parse_color (str "ff000")).isSome = true :=
  ⟨rfl, rfl⟩

/-- C3 amended: the color string `"zz0000"` fails the shared color parse of
    the watermark, edit-text and page-number endpoints, and every well-formed
    6-hex-digit color parses; but not every malformed color string is
    rejected. -/
theorem parse_color_zz_fails_and_wellformed_ok :
    parse_color (str "zz0000") = none ∧
      ∀ s : Str, sixHexColor s = true → (parse_color s).isSome = true := by
  refine ⟨rfl, ?_⟩
  intro s h
  unfold sixHexColor at h
  rw [Bool.and_eq_true] at h
  obtain ⟨hlen, hall⟩ := h
  rw [decide_eq_true_eq] at hlen
  rw [List.all_eq_true] at hall
  obtain ⟨c0, c1, c2, c3, c4, c5, hs⟩ := list_len6 _ hlen
  rw [hs] at hall
  exact parse_color_of_hexlist s c0 c1 c2 c3 c4 c5 hs hall

/-- Witness for C3's amended claim: the well-formed color `"ff0000"` parses. -/
theorem parse_color_zz_fails_and_wellformed_ok_witness :
    (parse_color (str "ff0000")).isSome = true :=
  parse_color_zz_fails_and_wellformed_ok.2 (str "ff0000") (by decide)

theorem bool_not_true (b : Bool) (h : ¬ b = true) : b = false := by
  cases b
  · rfl
  · exact absurd rfl h

theorem leadsWith_append (w ys : Str) : leadsWith w (w ++ ys) = true := by
  induction w with
  | nil => rfl
  | cons a as ih => simp [leadsWith, ih]

theorem leadsWith_drop (w : Str) : ∀ s : Str, leadsWith w s = true →
    s = w ++ List.drop w.length s := by
  induction w with
  | nil => intro s _; simp
  | cons a as ih =>
    intro s h
    cases s with
    | nil => simp [leadsWith] at h
    | cons b bs =>
      have h2 : (decide (a = b) && leadsWith as bs) = true := h
      rw [Bool.and_eq_true] at h2
      obtain ⟨hab, h3⟩ := h2
      have hab2 : a = b := of_decide_eq_true hab
      subst hab2
      have := ih bs h3
      show a :: bs = a :: (as ++ List.drop as.length bs)
      rw [← this]

theorem replaceAllAux_fuel_ge (needle repl : Str) (hnn : needle ≠ []) :
    ∀ (fuel : Nat) (s : Str), s.length ≤ fuel →
      replaceAllAux needle repl fuel s = replaceAllAux needle repl s.length s := by
  intro fuel
  induction fuel using Nat.strong_induction_on with
  | _ fuel ih =>
  intro s hs
  have hnl : 1 ≤ needle.length := List.length_pos.mpr hnn
  cases fuel with
  | zero =>
    have h0 : s = [] := by
      cases s with
      | nil => rfl
      | cons a b => simp at hs
    subst h0; rfl
  | succ f =>
    cases s with
    | nil => rfl
    | cons c rest =>
      show (if leadsWith needle (c :: rest) then
              repl ++ replaceAllAux needle repl f
                (List.drop needle.length (c :: rest))
            else c :: replaceAllAux needle repl f rest)
          = (if leadsWith needle (c :: rest) then
              repl ++ replaceAllAux needle repl rest.length
                (List.drop needle.length (c :: rest))
            else c :: replaceAllAux needle repl rest.length rest)
      have hlrest : rest.length ≤ f := by
        have : (c :: rest).length = rest.length + 1 := rfl
        omega
      have hdl : (List.drop needle.length (c :: rest)).length ≤ rest.length := by
        rw [List.length_drop]
        have : (c :: rest).length = rest.length + 1 := rfl
        omega
      by_cases hpre : leadsWith needle (c :: rest) = true
      · rw [if_pos hpre, if_pos hpre]
        rw [ih f (by omega) _ (by omega),
          ih rest.length (by omega) _ (by omega)]
      · rw [if_neg hpre, if_neg hpre]
        rw [ih f (by omega) rest (by omega),
          ih rest.length (by omega) rest (by omega)]

theorem substTemplateAux_fuel_ge (A B : Str) :
    ∀ (fuel : Nat) (t : Str), t.length ≤ fuel →
      substTemplateAux A B fuel t = substTemplateAux A B t.length t := by
  intro fuel
  induction fuel using Nat.strong_induction_on with
  | _ fuel ih =>
  intro t ht
  cases fuel with
  | zero =>
    have h0 : t = [] := by
      cases t with
      | nil => rfl
      | cons a b => simp at ht
    subst h0; rfl
  | succ f =>
    cases t with
    | nil => rfl
    | cons c rest =>
      show (if leadsWith needleN (c :: rest) then
              A ++ substTemplateAux A B f (List.drop 3 (c :: rest))
            else if leadsWith needleT (c :: rest) then
              B ++ substTemplateAux A B f (List.drop 7 (c :: rest))
            else c :: substTemplateAux A B f rest)
          = (if leadsWith needleN (c :: rest) then
              A ++ substTemplateAux A B rest.length (List.drop 3 (c :: rest))
            else if leadsWith needleT (c :: rest) then
              B ++ substTemplateAux A B rest.length (List.drop 7 (c :: rest))
            else c :: substTemplateAux A B rest.length rest)
      have hlc : (c :: rest).length = rest.length + 1 := rfl
      have hlrest : rest.length ≤ f := by omega
      have hd3 : (List.drop 3 (c :: rest)).length ≤ rest.length := by
        rw [List.length_drop]; omega
      have hd7 : (List.drop 7 (c :: rest)).length ≤ rest.length := by
        rw [List.length_drop]; omega
      by_cases h1 : leadsWith needleN (c :: rest) = true
      · rw [if_pos h1, if_pos h1]
        rw [ih f (by omega) _ (by omega),
          ih rest.length (by omega) _ (by omega)]
      · rw [if_neg h1, if_neg h1]
        by_cases h2 : leadsWith needleT (c :: rest) = true
        · rw [if_pos h2, if_pos h2]
          rw [ih f (by omega) _ (by omega),
            ih rest.length (by omega) _ (by omega)]
        · rw [if_neg h2, if_neg h2]
          rw [ih f (by omega) rest (by omega),
            ih rest.length (by omega) rest (by omega)]

theorem replaceAll_cons_no_match (needle repl : Str) (c : Char) (rest : Str)
    (h : leadsWith needle (c :: rest) = false) :
    replaceAll needle repl (c :: rest) = c :: replaceAll needle repl rest := by
  show (if leadsWith needle (c :: rest) then
          repl ++ replaceAllAux needle repl rest.length
            (List.drop needle.length (c :: rest))
        else c :: replaceAllAux needle repl rest.length rest)
      = c :: replaceAll needle repl rest
  rw [if_neg (by simp [h])]
  rfl

theorem replaceAll_match (needle repl ys : Str) (hnn : needle ≠ []) :
    replaceAll needle repl (needle ++ ys)
      = repl ++ replaceAll needle repl ys := by
  cases needle with
  | nil => exact absurd rfl hnn
  | cons a as =>
    show (if leadsWith (a :: as) (a :: (as ++ ys)) then
            repl ++ replaceAllAux (a :: as) repl (as ++ ys).length
              (List.drop (a :: as).length (a :: (as ++ ys)))
          else a :: replaceAllAux (a :: as) repl (as ++ ys).length (as ++ ys))
        = repl ++ replaceAll (a :: as) repl ys
    rw [if_pos (show leadsWith (a :: as) (a :: (as ++ ys)) = true from
      leadsWith_append (a :: as) ys)]
    show repl ++ replaceAllAux (a :: as) repl (as ++ ys).length
        (List.drop as.length (as ++ ys))
      = repl ++ replaceAll (a :: as) repl ys
    rw [List.drop_left]
    rw [replaceAllAux_fuel_ge (a :: as) repl (by simp) (as ++ ys).length ys
      (by simp [List.length_append])]
    rfl

theorem replaceAll_skip_seg (nt repl : Str) :
    ∀ (xs ys : Str), (∀ c ∈ xs, c ≠ '{') →
      replaceAll ('{' :: nt) repl (xs ++ ys)
        = xs ++ replaceAll ('{' :: nt) repl ys := by
  intro xs
  induction xs with
  | nil => intro ys _; rfl
  | cons c xr ih =>
    intro ys h
    have hc : ¬('{' = c) := fun hh => (h c (by simp)) hh.symm
    have hpre : leadsWith ('{' :: nt) (c :: (xr ++ ys)) = false := by
      show (decide ('{' = c) && leadsWith nt (xr ++ ys)) = false
      rw [decide_eq_false hc]
      rfl
    show replaceAll ('{' :: nt) repl (c :: (xr ++ ys))
      = c :: (xr ++ replaceAll ('{' :: nt) repl ys)
    rw [replaceAll_cons_no_match _ _ _ _ hpre,
      ih ys (fun d hd => h d (by simp [hd]))]

theorem leadsWith_reflect (A : Str) (hA1 : A ≠ [])
    (hA2 : ∀ c ∈ A, isNumChar c = true) :
    ∀ (s w : Str), (∀ c ∈ w, isNumChar c = false ∧ c ≠ '{') →
      leadsWith w (replaceAll needleN A s) = true → leadsWith w s = true := by
  intro s
  induction s with
  | nil =>
    intro w hw h
    cases w with
    | nil => rfl
    | cons wc wr => simp [replaceAll, replaceAllAux, leadsWith] at h
  | cons c rest ih =>
    intro w hw h
    cases w with
    | nil => rfl
    | cons wc wr =>
      by_cases hpre : leadsWith needleN (c :: rest) = true
      · have hdrop := leadsWith_drop needleN (c :: rest) hpre
        rw [hdrop, replaceAll_match needleN A _ (by simp [needleN])] at h
        cases A with
        | nil => exact absurd rfl hA1
        | cons a0 A2 =>
          have h2 : (decide (wc = a0) && leadsWith wr
              (A2 ++ replaceAll needleN (a0 :: A2)
                (List.drop needleN.length (c :: rest)))) = true := h
          rw [Bool.and_eq_true] at h2
          have hwc : wc = a0 := of_decide_eq_true h2.1
          subst hwc
          have hnum := hA2 wc (by simp)
          have hnot := (hw wc (by simp)).1
          rw [hnum] at hnot
          simp at hnot
      · have hpref : leadsWith needleN (c :: rest) = false :=
          bool_not_true _ hpre
        rw [replaceAll_cons_no_match needleN A c rest hpref] at h
        have h2 : (decide (wc = c)
            && leadsWith wr (replaceAll needleN A rest)) = true := h
        rw [Bool.and_eq_true] at h2
        have h3 := ih wr (fun d hd => hw d (by simp [hd])) h2.2
        show (decide (wc = c) && leadsWith wr rest) = true
        rw [h2.1, h3]
        rfl

theorem replaceAllN_skip_seg (A : Str) (xs ys : Str) (h : ∀ c ∈ xs, c ≠ '{') :
    replaceAll needleN A (xs ++ ys) = xs ++ replaceAll needleN A ys :=
  replaceAll_skip_seg ['n', '}'] A xs ys h

theorem replaceAllT_skip_seg (B : Str) (xs ys : Str) (h : ∀ c ∈ xs, c ≠ '{') :
    replaceAll needleT B (xs ++ ys) = xs ++ replaceAll needleT B ys :=
  replaceAll_skip_seg ['t', 'o', 't', 'a', 'l', '}'] B xs ys h

theorem subst_spec_n (A B tail : Str) :
    subst_template_spec A B (needleN ++ tail)
      = A ++ subst_template_spec A B tail := by
  show (if leadsWith needleN (needleN ++ tail) then
          A ++ substTemplateAux A B (tail.length + 1 + 1) tail
        else if leadsWith needleT (needleN ++ tail) then
          B ++ substTemplateAux A B (tail.length + 1 + 1)
            (List.drop 7 (needleN ++ tail))
        else '{' :: substTemplateAux A B (tail.length + 1 + 1)
          ('n' :: '}' :: tail))
      = A ++ subst_template_spec A B tail
  rw [if_pos (leadsWith_append needleN tail)]
  rw [substTemplateAux_fuel_ge A B (tail.length + 1 + 1) tail (by omega)]
  rfl

theorem subst_spec_t (A B tail : Str) :
    subst_template_spec A B (needleT ++ tail)
      = B ++ subst_template_spec A B tail := by
  show (if leadsWith needleN (needleT ++ tail) then
          A ++ substTemplateAux A B (tail.length + 1 + 1 + 1 + 1 + 1 + 1)
            (List.drop 3 (needleT ++ tail))
        else if leadsWith needleT (needleT ++ tail) then
          B ++ substTemplateAux A B (tail.length + 1 + 1 + 1 + 1 + 1 + 1) tail
        else '{' :: substTemplateAux A B (tail.length + 1 + 1 + 1 + 1 + 1 + 1)
          ('t' :: 'o' :: 't' :: 'a' :: 'l' :: '}' :: tail))
      = B ++ subst_template_spec A B tail
  rw [if_neg (show ¬ leadsWith needleN (needleT ++ tail) = true by
    intro hcon
    simp [show leadsWith needleN (needleT ++ tail) = false from rfl] at hcon)]
  rw [if_pos (leadsWith_append needleT tail)]
  rw [substTemplateAux_fuel_ge A B (tail.length + 1 + 1 + 1 + 1 + 1 + 1) tail
    (by omega)]
  rfl

theorem subst_spec_skip (A B : Str) (c : Char) (rest : Str)
    (h1 : leadsWith needleN (c :: rest) = false)
    (h2 : leadsWith needleT (c :: rest) = false) :
    subst_template_spec A B (c :: rest)
      = c :: subst_template_spec A B rest := by
  show (if leadsWith needleN (c :: rest) then
          A ++ substTemplateAux A B rest.length (List.drop 3 (c :: rest))
        else if leadsWith needleT (c :: rest) then
          B ++ substTemplateAux A B rest.length (List.drop 7 (c :: rest))
        else c :: substTemplateAux A B rest.length rest)
      = c :: subst_template_spec A B rest
  rw [if_neg (by simp [h1]), if_neg (by simp [h2])]
  rfl

theorem seq_replace_eq_subst (A B : Str) (hA1 : A ≠ [])
    (hA2 : ∀ c ∈ A, isNumChar c = true) :
    ∀ (n : Nat) (t : Str), t.length ≤ n →
      replaceAll needleT B (replaceAll needleN A t)
        = subst_template_spec A B t := by
  have hAne : ∀ c ∈ A, c ≠ '{' := by
    intro c hc hbrace
    have := hA2 c hc
    subst hbrace
    revert this
    decide
  intro n
  induction n with
  | zero =>
    intro t ht
    have h0 : t = [] := by
      cases t with
      | nil => rfl
      | cons a b => simp at ht
    subst h0; rfl
  | succ n ih =>
    intro t ht
    cases t with
    | nil => rfl
    | cons c rest =>
      have hlc : (c :: rest).length = rest.length + 1 := rfl
      by_cases h1 : leadsWith needleN (c :: rest) = true
      · have hdrop := leadsWith_drop needleN (c :: rest) h1
        have htail : (List.drop needleN.length (c :: rest)).length ≤ n := by
          rw [List.length_drop]
          have h3 : needleN.length = 3 := rfl
          omega
        rw [hdrop]
        generalize hg : List.drop needleN.length (c :: rest) = tail
        rw [hg] at htail
        rw [replaceAll_match needleN A tail (by decide)]
        rw [replaceAllT_skip_seg B A (replaceAll needleN A tail) hAne]
        rw [ih tail htail, subst_spec_n A B tail]
      · by_cases h2 : leadsWith needleT (c :: rest) = true
        · have hdrop := leadsWith_drop needleT (c :: rest) h2
          have htail : (List.drop needleT.length (c :: rest)).length ≤ n := by
            rw [List.length_drop]
            have h7 : needleT.length = 7 := rfl
            omega
          rw [hdrop]
          generalize hg : List.drop needleT.length (c :: rest) = tail
          rw [hg] at htail
          show replaceAll needleT B (replaceAll needleN A
              ('{' :: (['t', 'o', 't', 'a', 'l', '}'] ++ tail)))
            = subst_template_spec A B (needleT ++ tail)
          rw [replaceAll_cons_no_match needleN A '{'
            (['t', 'o', 't', 'a', 'l', '}'] ++ tail) rfl]
          rw [replaceAllN_skip_seg A ['t', 'o', 't', 'a', 'l', '}'] tail
            (by decide)]
          show replaceAll needleT B (needleT ++ replaceAll needleN A tail)
            = subst_template_spec A B (needleT ++ tail)
          rw [replaceAll_match needleT B (replaceAll needleN A tail)
            (by decide)]
          rw [ih tail htail, subst_spec_t A B tail]
        · have h1f : leadsWith needleN (c :: rest) = false := bool_not_true _ h1
          have h2f : leadsWith needleT (c :: rest) = false := bool_not_true _ h2
          rw [replaceAll_cons_no_match needleN A c rest h1f]
          have hout : leadsWith needleT (c :: replaceAll needleN A rest)
              = false := by
            cases hb : leadsWith needleT (c :: replaceAll needleN A rest) with
            | false => rfl
            | true =>
              exfalso
              have hb2 : (decide ('{' = c) && leadsWith
                  ['t', 'o', 't', 'a', 'l', '}']
                  (replaceAll needleN A rest)) = true := hb
              rw [Bool.and_eq_true] at hb2
              have hrefl := leadsWith_reflect A hA1 hA2 rest
                ['t', 'o', 't', 'a', 'l', '}'] (by decide) hb2.2
              have hct : leadsWith needleT (c :: rest) = true := by
                show (decide ('{' = c)
                  && leadsWith ['t', 'o', 't', 'a', 'l', '}'] rest) = true
                rw [hb2.1, hrefl]
                rfl
              rw [hct] at h2f
              simp at h2f
          rw [replaceAll_cons_no_match needleT B c
            (replaceAll needleN A rest) hout]
          rw [ih rest (by omega)]
          rw [subst_spec_skip A B c rest h1f h2f]

theorem digitChar_num (n : Nat) : isNumChar (digitChar n) = true := by
  rcases n with _ | _ | _ | _ | _ | _ | _ | _ | _ | _ | m
  iterate 10 decide
  show isNumChar '0' = true
  decide

theorem natToStrAux_num (fuel : Nat) : ∀ n, ∀ c ∈ natToStrAux fuel n,
    isNumChar c = true := by
  induction fuel with
  | zero => intro n c hc; simp [natToStrAux] at hc
  | succ fuel ih =>
    intro n c hc
    unfold natToStrAux at hc
    by_cases h : n < 10
    · rw [if_pos h] at hc
      simp only [List.mem_singleton] at hc
      subst hc
      exact digitChar_num n
    · rw [if_neg h] at hc
      rcases List.mem_append.mp hc with h1 | h2
      · exact ih _ c h1
      · simp only [List.mem_singleton] at h2
        subst h2
        exact digitChar_num _

theorem natToStrAux_ne_nil (fuel n : Nat) (h : 1 ≤ fuel) :
    natToStrAux fuel n ≠ [] := by
  cases fuel with
  | zero => omega
  | succ fuel =>
    unfold natToStrAux
    by_cases h2 : n < 10
    · rw [if_pos h2]; simp
    · rw [if_neg h2]; simp

theorem intToStr_num (i : Int) :
    intToStr i ≠ [] ∧ ∀ c ∈ intToStr i, isNumChar c = true := by
  unfold intToStr natToStr
  by_cases h : i < 0
  · rw [if_pos h]
    refine ⟨by simp, ?_⟩
    intro c hc
    rcases List.mem_cons.mp hc with rfl | h2
    · decide
    · exact natToStrAux_num _ _ c h2
  · rw [if_neg h]
    exact ⟨natToStrAux_ne_nil _ _ (by omega),
      fun c hc => natToStrAux_num _ _ c hc⟩

/-- C9: with the skip-first flag set, page 0 receives no number; every page
    that receives text gets the caller's format template with the literal
    placeholders simultaneously substituted: each `{n}` replaced by
    `str(start_number + i - (1 if skip_first else 0))` and each `{total}`
    replaced by `str(total_pages)`.  (The code's sequential
    `str.replace` chain realizes exactly this simultaneous substitution.) -/
theorem page_number_text_substitutes_template (t : Str) (s : Int) (f : Bool)
    (total i : Nat) :
    page_number_text t s true total 0 = none ∧
      (¬(f = true ∧ i = 0) →
        page_number_text t s f total i
          = some (subst_template_spec
              (intToStr (s + (i : Int) - (if f then 1 else 0)))
              (natToStr total) t)) := by
  constructor
  · rfl
  · intro hni
    have hcond : (f && (i == 0)) = false := by
      cases f with
      | false => rfl
      | true =>
        have hi : i ≠ 0 := fun h0 => hni ⟨rfl, h0⟩
        simp [hi]
    obtain ⟨hA1, hA2⟩ := intToStr_num (s + (i : Int) - (if f then 1 else 0))
    show (if (f && (i == 0)) = true then none
          else some (replaceAll needleT (natToStr total)
            (replaceAll needleN
              (intToStr (s + (i : Int) - (if f then 1 else 0))) t)))
        = some (subst_template_spec
            (intToStr (s + (i : Int) - (if f then 1 else 0)))
            (natToStr total) t)
    rw [hcond, if_neg (by simp)]
    exact congrArg some (seq_replace_eq_subst
      (intToStr (s + (i : Int) - (if f then 1 else 0))) (natToStr total)
      hA1 hA2 t.length t le_rfl)

/-- Witness for C9 on the default template, start 5, skip-first, page 2 of 7. -/
theorem page_number_text_substitutes_template_witness :
    page_number_text (str "Page {n} of {total}") 5 true 7 2
      = some (subst_template_spec (intToStr (5 + (2 : Int) - 1))
          (natToStr 7) (str "Page {n} of {total}")) :=
  (page_number_text_substitutes_template
    (str "Page {n} of {total}") 5 true 7 2).2 (by decide)
